import Mathlib

/-!
Shallow embedding of `park_report/park_scraper.py` (class `ParkScraper`).

The scraper's observable behaviour is modelled as pure functions:
* page retrieval is an oracle `ℤ → Option (List ResultsRow)` (an event
  number's results page, already parsed into its result rows; `none` is a
  transport failure);
* side effects (browser page loads, `time.sleep(1)` pacing calls) are
  recorded in an `Action` trace;
* Python exceptions become `Except`/abort outcomes;
* the session's mutable state (`_fetched_events`, `_dataset`) is an explicit
  `ScraperState` threaded through the fetch loop.
-/

namespace ParkReport

/-- An observable side effect of the scraper: loading a page in the browser
(`ParkScraper._fetch_page`) or the politeness delay (`time.sleep(1)`). -/
inductive Action where
  | fetchPage : String → Action
  | pace : Action
deriving DecidableEq

/-- Detail fields of a results row, read only when the row's name is not
`"Unknown"` (`ParkScraper._extract_results`, the `if` branch). The six
`data-*` attributes are kept as the raw optional strings that
`result.get(...)` returns. -/
structure Details where
  parkrun_id : String
  time : String
  achievement : Option String
  agegrade : Option String
  agegroup : Option String
  club : Option String
  gender : Option String
  runs : Option String
deriving DecidableEq

/-- One extracted row before the `event_no` column is stamped
(`this_result` in `ParkScraper._extract_results`): `name` and `position`
are the raw `data-name` / `data-position` attribute values, and
`details = none` exactly when the detail keys were never written. -/
structure PreRecord where
  name : Option String
  position : Option String
  details : Option Details
deriving DecidableEq

/-- One row of the accumulated dataset, after
`event_results_df["event_no"] = event_no` in
`ParkScraper._fetch_single_event_results`. -/
structure ResultRecord where
  event_no : ℤ
  name : Option String
  position : Option String
  details : Option Details
deriving DecidableEq

/-- The nested elements of a results row that `_extract_results` reads with
fallible chained lookups: the `href` of the anchor inside the name cell
(`none` when the cell, anchor or attribute is missing, which makes the
Python chain raise) and the text of the `div` inside the time cell. -/
structure RowCells where
  profileHref : Option String
  timeText : Option String
deriving DecidableEq

/-- One `tr.Results-table-row` element: its row-level `data-*` attributes
(each `none` when absent, as `result.get` returns `None`) and its nested
cells. -/
structure ResultsRow where
  dataName : Option String
  dataPosition : Option String
  dataAchievement : Option String
  dataAgegrade : Option String
  dataAgegroup : Option String
  dataClub : Option String
  dataGender : Option String
  dataRuns : Option String
  cells : RowCells
deriving DecidableEq

/-- Split a character list at every occurrence of `sep`, keeping empty
segments, exactly as Python `str.split` with a one-character separator;
the result is always non-empty. -/
def splitOnChar (sep : Char) : List Char → List (List Char)
  | [] => [[]]
  | x :: xs =>
    match splitOnChar sep xs with
    | [] => [[]]
    | y :: ys => if x = sep then [] :: y :: ys else (x :: y) :: ys

/-- Python `href.split("/")[-1]`: the final `/`-separated segment of a
string (the split result is never empty, so the default is unreachable). -/
def lastPathSegment (s : String) : String :=
  String.mk ((splitOnChar '/' s.data).getLastD [])

/-- The session state mutated by `fetch_results`: `_fetched_events` and the
rows of `_dataset` (the `None`/empty dataset is the empty list; `pd.concat`
is list append). -/
structure ScraperState where
  fetched : Finset ℤ
  dataset : List ResultRecord
deriving DecidableEq

/-- State right after a successful construction: `_fetched_events = set([])`
and `_dataset = None`. -/
def initState : ScraperState := ⟨∅, []⟩

/-- `ParkScraper._is_today_saturday`: `datetime.date.today().weekday() == 5`,
with the clock made explicit as the current weekday (0 = Monday). -/
def is_today_saturday (weekday : ℕ) : Bool :=
  weekday == 5

/-- The guard condition of `ParkScraper._init_browser`:
`if not self._avoid_saturday or self._is_today_saturday(): raise ...`.
`true` means construction raises before any browser is opened. -/
def guardRaises (avoid_saturday : Bool) (weekday : ℕ) : Bool :=
  !avoid_saturday || is_today_saturday weekday

/-- The landing-page URL built in `ParkScraper._fetch_event_summary`. -/
def homepageUrl (park_id : String) : String :=
  "https://www.parkrun.org.uk/" ++ park_id ++ "/"

/-- The per-event results URL built in
`ParkScraper._fetch_single_event_results`. -/
def eventPageUrl (park_id : String) (event_no : ℤ) : String :=
  "https://www.parkrun.org.uk/" ++ park_id ++ "/results/" ++ toString event_no

/-- The page loads and pacing delays performed by `ParkScraper.__init__`:
nothing at all when `_init_browser` raises, otherwise exactly the summary
page fetch of `_fetch_event_summary` (no `time.sleep` occurs on this path). -/
def constructionTrace (avoid_saturday : Bool) (weekday : ℕ) (park_id : String) :
    List Action :=
  if guardRaises avoid_saturday weekday then []
  else [Action.fetchPage (homepageUrl park_id)]

/-- The body of the row loop in `ParkScraper._extract_results`: `name` and
`position` always come from the row attributes; when `name != "Unknown"`
the detail fields are read, and a missing nested name-cell anchor or time
`div` raises (`Except.error`), aborting the whole extraction. -/
def extractRow (r : ResultsRow) : Except String PreRecord :=
  if r.dataName = some "Unknown" then
    Except.ok ⟨r.dataName, r.dataPosition, none⟩
  else
    match r.cells.profileHref, r.cells.timeText with
    | some href, some tm =>
        Except.ok ⟨r.dataName, r.dataPosition,
          some ⟨lastPathSegment href, tm, r.dataAchievement, r.dataAgegrade,
            r.dataAgegroup, r.dataClub, r.dataGender, r.dataRuns⟩⟩
    | _, _ => Except.error "missing nested element in results row"

/-- `ParkScraper._extract_results`: the rows in page order, each extracted
by `extractRow`; the first raising row aborts the call with no partial
output (the Python exception propagates out of the loop). -/
def extractResults : List ResultsRow → Except String (List PreRecord)
  | [] => Except.ok []
  | r :: rest =>
    match extractRow r with
    | Except.error m => Except.error m
    | Except.ok p =>
      match extractResults rest with
      | Except.error m => Except.error m
      | Except.ok ps => Except.ok (p :: ps)

/-- `event_results_df["event_no"] = event_no`: stamp the supplied event
number onto an extracted row. -/
def stampEvent (event_no : ℤ) (p : PreRecord) : ResultRecord :=
  ⟨event_no, p.name, p.position, p.details⟩

/-- Whether fetching then extracting event `e` succeeds under the given
page oracle (no transport failure and `extractResults` returns `ok`). -/
def eventOk (oracle : ℤ → Option (List ResultsRow)) (e : ℤ) : Bool :=
  match oracle e with
  | none => false
  | some rows =>
    match extractResults rows with
    | Except.error _ => false
    | Except.ok _ => true

/-- The stamped records that a successful fetch of event `e` appends to the
dataset (`[]` when the fetch or extraction fails, in which case nothing is
ever appended). -/
def successRecords (oracle : ℤ → Option (List ResultsRow)) (e : ℤ) :
    List ResultRecord :=
  match oracle e with
  | none => []
  | some rows =>
    match extractResults rows with
    | Except.error _ => []
    | Except.ok ps => ps.map (stampEvent e)

/-- `ParkScraper._fetch_single_event_results`: fetch event `e`'s page,
extract its rows, stamp `event_no`, and append to the dataset
(`pd.concat`); a transport or extraction failure raises and leaves the
state untouched. The fetched set is not modified here. -/
def fetchSingleEvent (oracle : ℤ → Option (List ResultsRow)) (e : ℤ)
    (st : ScraperState) : Except String ScraperState :=
  match oracle e with
  | none => Except.error "transport failure"
  | some rows =>
    match extractResults rows with
    | Except.error m => Except.error m
    | Except.ok ps =>
      Except.ok ⟨st.fetched, st.dataset ++ ps.map (stampEvent e)⟩

/-- `ParkScraper._fetch_event_results`: for each planned event in order,
fetch-and-merge it, add it to `_fetched_events`, then `time.sleep(1)`.
Returns the final state, the trace of page loads and pacing delays, and
`some e` when event `e` raised (the loop aborts there; the failing fetch
attempt is still in the trace, prior merges are kept). -/
def fetchEventResults (pid : String) (oracle : ℤ → Option (List ResultsRow)) :
    List ℤ → ScraperState → ScraperState × List Action × Option ℤ
  | [], st => (st, [], none)
  | e :: rest, st =>
    match fetchSingleEvent oracle e st with
    | Except.error _ => (st, [Action.fetchPage (eventPageUrl pid e)], some e)
    | Except.ok st1 =>
      let r := fetchEventResults pid oracle rest ⟨insert e st1.fetched, st1.dataset⟩
      (r.1, Action.fetchPage (eventPageUrl pid e) :: Action.pace :: r.2.1, r.2.2)

/-- Python truthiness of an optional integer argument, as in
`if from_event and to_event:` (`None` and `0` are falsy). -/
def truthy : Option ℤ → Bool
  | none => false
  | some n => !(n == 0)

/-- `np.arange(from_event, to_event + 1)` on integers: the ascending list
`[a, a+1, ..., b]`, empty when `b < a`. -/
def rangeList (a b : ℤ) : List ℤ :=
  (List.range (b + 1 - a).toNat).map fun (i : ℕ) => a + (i : ℤ)

/-- `[self._last_event_no - n for n in range(last_events)]` (empty when
`last_events ≤ 0`, as Python `range`). -/
def lastNList (last : ℤ) (n : ℤ) : List ℤ :=
  (List.range n.toNat).map fun (i : ℕ) => last - (i : ℤ)

/-- The candidate events of `ParkScraper.fetch_results`: the explicit range
when `if from_event and to_event:` is truthy, otherwise the last-N list. -/
def candidateList (last : ℤ) (from_event to_event : Option ℤ) (last_events : ℤ) :
    List ℤ :=
  if truthy from_event && truthy to_event then
    rangeList (from_event.getD 0) (to_event.getD 0)
  else lastNList last last_events

/-- The planning pipeline of `ParkScraper.fetch_results`:
`list(set(candidates).difference(self._fetched_events))` followed by
`[e for e in ... if e <= self._last_event_no]`. Python's `set` iteration
order is unspecified; the model fixes the deterministic first-occurrence
enumeration (`dedup`), which represents the same set. -/
def plannedList (fetched : Finset ℤ) (last : ℤ) (from_event to_event : Option ℤ)
    (last_events : ℤ) : List ℤ :=
  (((candidateList last from_event to_event last_events).dedup.filter
      fun e => decide (e ∉ fetched)).filter
    fun e => decide (e ≤ last))

/-- `ParkScraper.fetch_results`: plan, then run the fetch loop only when the
plan is non-empty (`if events_to_fetch:`). Returns the final state, the
action trace, and `some e` when the loop aborted at event `e`. -/
def fetch_results (pid : String) (oracle : ℤ → Option (List ResultsRow))
    (st : ScraperState) (last : ℤ) (from_event to_event : Option ℤ)
    (last_events : ℤ) : ScraperState × List Action × Option ℤ :=
  let evs := plannedList st.fetched last from_event to_event last_events
  if evs.isEmpty then (st, [], none)
  else fetchEventResults pid oracle evs st

/-- The arguments of one `fetch_results` call (`last_events` defaults to 12
in the source; here it is always explicit). -/
structure FetchRequest where
  from_event : Option ℤ
  to_event : Option ℤ
  last_events : ℤ
deriving DecidableEq

/-- A sequence of `fetch_results` calls on one session (fixed `park_id`,
page oracle and `_last_event_no`), threading the session state. -/
def runCalls (pid : String) (oracle : ℤ → Option (List ResultsRow)) (last : ℤ) :
    List FetchRequest → ScraperState → ScraperState
  | [], st => st
  | req :: reqs, st =>
    runCalls pid oracle last reqs
      (fetch_results pid oracle st last req.from_event req.to_event req.last_events).1

/-- Number of page loads in a trace. -/
def countFetch (tr : List Action) : ℕ :=
  (tr.filter fun a =>
    match a with
    | Action.fetchPage _ => true
    | Action.pace => false).length

/-- Number of pacing delays (`time.sleep(1)` calls) in a trace. -/
def countPace (tr : List Action) : ℕ :=
  (tr.filter fun a =>
    match a with
    | Action.fetchPage _ => false
    | Action.pace => true).length

/-! ### Basic lemmas about single-event fetching -/

lemma fetchSingleEvent_ok {oracle : ℤ → Option (List ResultsRow)} {e : ℤ}
    (st : ScraperState) (h : eventOk oracle e = true) :
    fetchSingleEvent oracle e st =
      Except.ok ⟨st.fetched, st.dataset ++ successRecords oracle e⟩ := by
  cases ho : oracle e with
  | none => simp [eventOk, ho] at h
  | some rows =>
    cases hx : extractResults rows with
    | error m => simp [eventOk, ho, hx] at h
    | ok ps => simp [fetchSingleEvent, successRecords, ho, hx]

lemma fetchSingleEvent_err {oracle : ℤ → Option (List ResultsRow)} {e : ℤ}
    (st : ScraperState) (h : eventOk oracle e = false) :
    ∃ m, fetchSingleEvent oracle e st = Except.error m := by
  cases ho : oracle e with
  | none => exact ⟨"transport failure", by simp [fetchSingleEvent, ho]⟩
  | some rows =>
    cases hx : extractResults rows with
    | error m => exact ⟨m, by simp [fetchSingleEvent, ho, hx]⟩
    | ok ps => simp [eventOk, ho, hx] at h

/-! ### Unfolding lemmas for the fetch loop -/

lemma fetchEventResults_cons_err {pid : String} {oracle : ℤ → Option (List ResultsRow)}
    {e : ℤ} {rest : List ℤ} {st : ScraperState} (h : eventOk oracle e = false) :
    fetchEventResults pid oracle (e :: rest) st =
      (st, [Action.fetchPage (eventPageUrl pid e)], some e) := by
  obtain ⟨m, hm⟩ := fetchSingleEvent_err st h
  simp [fetchEventResults, hm]

lemma fetchEventResults_cons_ok {pid : String} {oracle : ℤ → Option (List ResultsRow)}
    {e : ℤ} {rest : List ℤ} {st : ScraperState} (h : eventOk oracle e = true) :
    fetchEventResults pid oracle (e :: rest) st =
      ((fetchEventResults pid oracle rest
          ⟨insert e st.fetched, st.dataset ++ successRecords oracle e⟩).1,
       Action.fetchPage (eventPageUrl pid e) :: Action.pace ::
         (fetchEventResults pid oracle rest
            ⟨insert e st.fetched, st.dataset ++ successRecords oracle e⟩).2.1,
       (fetchEventResults pid oracle rest
          ⟨insert e st.fetched, st.dataset ++ successRecords oracle e⟩).2.2) := by
  simp [fetchEventResults, fetchSingleEvent_ok st h]

lemma fetchEventResults_all_ok {pid : String} {oracle : ℤ → Option (List ResultsRow)}
    {evs : List ℤ} (st : ScraperState)
    (h : ∀ e ∈ evs, eventOk oracle e = true) :
    fetchEventResults pid oracle evs st =
      (⟨st.fetched ∪ evs.toFinset, st.dataset ++ evs.flatMap (successRecords oracle)⟩,
       evs.flatMap (fun e => [Action.fetchPage (eventPageUrl pid e), Action.pace]),
       none) := by
  induction evs generalizing st with
  | nil => simp [fetchEventResults]
  | cons e rest ih =>
    rw [fetchEventResults_cons_ok (h e (List.mem_cons_self e rest))]
    rw [ih _ (fun x hx => h x (List.mem_cons_of_mem e hx))]
    simp [List.toFinset_cons, Finset.insert_union, Finset.union_insert,
      List.flatMap_cons, List.append_assoc]

lemma fetchEventResults_err_none {pid : String} {oracle : ℤ → Option (List ResultsRow)}
    {evs : List ℤ} (st : ScraperState)
    (h : (fetchEventResults pid oracle evs st).2.2 = none) :
    (fetchEventResults pid oracle evs st).1.fetched = st.fetched ∪ evs.toFinset := by
  induction evs generalizing st with
  | nil => simp [fetchEventResults]
  | cons e rest ih =>
    cases hok : eventOk oracle e with
    | false =>
      rw [fetchEventResults_cons_err hok] at h
      simp at h
    | true =>
      rw [fetchEventResults_cons_ok hok] at h ⊢
      dsimp only at h ⊢
      rw [ih _ h]
      simp [List.toFinset_cons, Finset.insert_union, Finset.union_insert]

lemma fetchEventResults_abort {pid : String} {oracle : ℤ → Option (List ResultsRow)}
    (pre : List ℤ) (bad : ℤ) (post : List ℤ) (st : ScraperState)
    (hpre : ∀ e ∈ pre, eventOk oracle e = true)
    (hbad : eventOk oracle bad = false) :
    fetchEventResults pid oracle (pre ++ bad :: post) st =
      (⟨st.fetched ∪ pre.toFinset, st.dataset ++ pre.flatMap (successRecords oracle)⟩,
       (pre.flatMap fun e => [Action.fetchPage (eventPageUrl pid e), Action.pace])
         ++ [Action.fetchPage (eventPageUrl pid bad)],
       some bad) := by
  induction pre generalizing st with
  | nil =>
    rw [List.nil_append, fetchEventResults_cons_err hbad]
    simp
  | cons e rest ih =>
    rw [List.cons_append, fetchEventResults_cons_ok (hpre e (List.mem_cons_self e rest))]
    rw [ih _ (fun x hx => hpre x (List.mem_cons_of_mem e hx))]
    simp [List.toFinset_cons, Finset.insert_union, Finset.union_insert,
      List.flatMap_cons, List.append_assoc]

/-! ### Planner lemmas -/

lemma mem_plannedList {fetched : Finset ℤ} {last : ℤ} {fo t : Option ℤ} {n e : ℤ} :
    e ∈ plannedList fetched last fo t n ↔
      e ∈ candidateList last fo t n ∧ e ∉ fetched ∧ e ≤ last := by
  simp only [plannedList, List.mem_filter, List.mem_dedup, decide_eq_true_eq]
  tauto

lemma plannedList_nodup {fetched : Finset ℤ} {last : ℤ} {fo t : Option ℤ} {n : ℤ} :
    (plannedList fetched last fo t n).Nodup :=
  ((List.nodup_dedup _).filter _).filter _

lemma mem_rangeList {a b e : ℤ} : e ∈ rangeList a b ↔ a ≤ e ∧ e ≤ b := by
  unfold rangeList
  rw [List.mem_map]
  constructor
  · rintro ⟨i, hi, rfl⟩
    rw [List.mem_range] at hi
    omega
  · intro h
    refine ⟨(e - a).toNat, ?_, ?_⟩
    · rw [List.mem_range]
      omega
    · omega

lemma mem_lastNList {last n e : ℤ} :
    e ∈ lastNList last n ↔ ∃ i : ℕ, (i : ℤ) < n ∧ e = last - (i : ℤ) := by
  unfold lastNList
  rw [List.mem_map]
  constructor
  · rintro ⟨i, hi, rfl⟩
    rw [List.mem_range] at hi
    exact ⟨i, by omega, by omega⟩
  · rintro ⟨i, hi, heq⟩
    refine ⟨i, ?_, ?_⟩
    · rw [List.mem_range]
      omega
    · omega

lemma candidateList_range {last n f t : ℤ} (hf : f ≠ 0) (ht : t ≠ 0) :
    candidateList last (some f) (some t) n = rangeList f t := by
  simp [candidateList, truthy, hf, ht]

lemma candidateList_lastN {last n : ℤ} {fo t : Option ℤ}
    (h : truthy fo = false ∨ truthy t = false) :
    candidateList last fo t n = lastNList last n := by
  rcases h with h | h <;> simp [candidateList, h]

/-! ### Accumulator invariant: fetched set versus merged records -/

lemma successRecords_event_no {oracle : ℤ → Option (List ResultsRow)} {e : ℤ}
    {r : ResultRecord} (h : r ∈ successRecords oracle e) : r.event_no = e := by
  cases ho : oracle e with
  | none => simp [successRecords, ho] at h
  | some rows =>
    cases hx : extractResults rows with
    | error m => simp [successRecords, ho, hx] at h
    | ok ps =>
      simp only [successRecords, ho, hx] at h
      obtain ⟨p, hp, rfl⟩ := List.mem_map.mp h
      rfl

/-- The central consistency invariant of the accumulator: every fetched
event fetched-and-extracted successfully, and an event number is in the
fetched set with a non-empty extraction exactly when some dataset row
carries it. -/
def Inv (oracle : ℤ → Option (List ResultsRow)) (st : ScraperState) : Prop :=
  (∀ e ∈ st.fetched, eventOk oracle e = true) ∧
  ∀ e : ℤ, (e ∈ st.fetched ∧ successRecords oracle e ≠ []) ↔
    ∃ r ∈ st.dataset, r.event_no = e

lemma inv_init (oracle : ℤ → Option (List ResultsRow)) : Inv oracle initState := by
  constructor
  · intro e he
    simp [initState] at he
  · intro e
    simp [initState]

lemma inv_insert {oracle : ℤ → Option (List ResultsRow)} {st : ScraperState} {e : ℤ}
    (hinv : Inv oracle st) (hok : eventOk oracle e = true) (hnew : e ∉ st.fetched) :
    Inv oracle ⟨insert e st.fetched, st.dataset ++ successRecords oracle e⟩ := by
  obtain ⟨h1, h2⟩ := hinv
  constructor
  · intro x hx
    rcases Finset.mem_insert.mp hx with rfl | hx
    · exact hok
    · exact h1 x hx
  · intro x
    simp only [Finset.mem_insert, List.mem_append]
    constructor
    · rintro ⟨hx, hsr⟩
      rcases hx with rfl | hx
      · obtain ⟨r, hr⟩ := List.exists_mem_of_ne_nil _ hsr
        exact ⟨r, Or.inr hr, successRecords_event_no hr⟩
      · obtain ⟨r, hrmem, hre⟩ := (h2 x).mp ⟨hx, hsr⟩
        exact ⟨r, Or.inl hrmem, hre⟩
    · rintro ⟨r, hr | hr, hre⟩
      · obtain ⟨hx, hsr⟩ := (h2 x).mpr ⟨r, hr, hre⟩
        exact ⟨Or.inr hx, hsr⟩
      · have hxe : x = e := by
          rw [← hre]
          exact successRecords_event_no hr
        subst hxe
        exact ⟨Or.inl rfl, List.ne_nil_of_mem hr⟩

lemma inv_loop {pid : String} {oracle : ℤ → Option (List ResultsRow)}
    {evs : List ℤ} {st : ScraperState}
    (hinv : Inv oracle st) (hnd : evs.Nodup) (hdisj : ∀ e ∈ evs, e ∉ st.fetched) :
    Inv oracle (fetchEventResults pid oracle evs st).1 := by
  induction evs generalizing st with
  | nil => simpa [fetchEventResults] using hinv
  | cons e rest ih =>
    cases hok : eventOk oracle e with
    | false =>
      rw [fetchEventResults_cons_err hok]
      exact hinv
    | true =>
      rw [fetchEventResults_cons_ok hok]
      dsimp only
      apply ih
      · exact inv_insert ⟨hinv.1, hinv.2⟩ hok (hdisj e (List.mem_cons_self e rest))
      · exact (List.nodup_cons.mp hnd).2
      · intro x hx
        have hne : x ≠ e := fun hxe => (List.nodup_cons.mp hnd).1 (hxe ▸ hx)
        have hxf : x ∉ st.fetched := hdisj x (List.mem_cons_of_mem e hx)
        simp only [Finset.mem_insert, not_or]
        exact ⟨hne, hxf⟩

lemma inv_fetch_results {pid : String} {oracle : ℤ → Option (List ResultsRow)}
    {st : ScraperState} {last : ℤ} {fo t : Option ℤ} {n : ℤ}
    (hinv : Inv oracle st) :
    Inv oracle (fetch_results pid oracle st last fo t n).1 := by
  unfold fetch_results
  cases h : (plannedList st.fetched last fo t n).isEmpty with
  | true => simpa [h] using hinv
  | false =>
    simp only [h, Bool.false_eq_true, if_false]
    exact inv_loop hinv plannedList_nodup (fun e he => (mem_plannedList.mp he).2.1)

lemma inv_runCalls {pid : String} {oracle : ℤ → Option (List ResultsRow)} {last : ℤ}
    (reqs : List FetchRequest) (st : ScraperState) (hinv : Inv oracle st) :
    Inv oracle (runCalls pid oracle last reqs st) := by
  induction reqs generalizing st with
  | nil => exact hinv
  | cons r rs ih => exact ih _ (inv_fetch_results hinv)

/-! ### Extraction shape lemmas -/

/-- How one extracted-and-stamped record relates to its source row:
`event_no` is the supplied one, `name` and `position` are the raw row
attributes, the detail fields are absent for a row named `"Unknown"` and
all present (from the nested cells and the row attributes) for any other
row. -/
def rowSpec (event_no : ℤ) (row : ResultsRow) (rec : ResultRecord) : Prop :=
  rec.event_no = event_no ∧ rec.name = row.dataName ∧
  rec.position = row.dataPosition ∧
  (row.dataName = some "Unknown" → rec.details = none) ∧
  (row.dataName ≠ some "Unknown" →
    ∃ href tm, row.cells.profileHref = some href ∧ row.cells.timeText = some tm ∧
      rec.details = some ⟨lastPathSegment href, tm, row.dataAchievement,
        row.dataAgegrade, row.dataAgegroup, row.dataClub, row.dataGender,
        row.dataRuns⟩)

lemma extractRow_spec {row : ResultsRow} {p : PreRecord} (e : ℤ)
    (h : extractRow row = Except.ok p) : rowSpec e row (stampEvent e p) := by
  unfold extractRow at h
  by_cases hu : row.dataName = some "Unknown"
  · rw [if_pos hu] at h
    simp only [Except.ok.injEq] at h
    subst h
    exact ⟨rfl, rfl, rfl, fun _ => rfl, fun hn => absurd hu hn⟩
  · rw [if_neg hu] at h
    cases hh : row.cells.profileHref with
    | none =>
      cases ht : row.cells.timeText with
      | none => simp [hh, ht] at h
      | some tm => simp [hh, ht] at h
    | some href =>
      cases ht : row.cells.timeText with
      | none => simp [hh, ht] at h
      | some tm =>
        simp only [hh, ht, Except.ok.injEq] at h
        subst h
        exact ⟨rfl, rfl, rfl, fun hc => absurd hc hu,
          fun _ => ⟨href, tm, hh, ht, rfl⟩⟩

lemma extractResults_spec {rows : List ResultsRow} {ps : List PreRecord} (e : ℤ)
    (h : extractResults rows = Except.ok ps) :
    List.Forall₂ (rowSpec e) rows (ps.map (stampEvent e)) := by
  induction rows generalizing ps with
  | nil =>
    simp only [extractResults, Except.ok.injEq] at h
    subst h
    exact List.Forall₂.nil
  | cons r rest ih =>
    cases hr : extractRow r with
    | error m => simp [extractResults, hr] at h
    | ok p =>
      cases hrest : extractResults rest with
      | error m => simp [extractResults, hr, hrest] at h
      | ok ps1 =>
        simp only [extractResults, hr, hrest, Except.ok.injEq] at h
        subst h
        exact List.Forall₂.cons (extractRow_spec e hr) (ih hrest)

/-! ### Trace counting lemmas -/

lemma countPace_append (a b : List Action) :
    countPace (a ++ b) = countPace a + countPace b := by
  simp [countPace, List.filter_append]

lemma countFetch_append (a b : List Action) :
    countFetch (a ++ b) = countFetch a + countFetch b := by
  simp [countFetch, List.filter_append]

lemma countPace_pairTrace (pid : String) (evs : List ℤ) :
    countPace (evs.flatMap fun e => [Action.fetchPage (eventPageUrl pid e), Action.pace])
      = evs.length := by
  induction evs with
  | nil => rfl
  | cons e rest ih =>
    rw [List.flatMap_cons, countPace_append, ih]
    show 1 + rest.length = rest.length + 1
    omega

lemma countFetch_pairTrace (pid : String) (evs : List ℤ) :
    countFetch (evs.flatMap fun e => [Action.fetchPage (eventPageUrl pid e), Action.pace])
      = evs.length := by
  induction evs with
  | nil => rfl
  | cons e rest ih =>
    rw [List.flatMap_cons, countFetch_append, ih]
    show 1 + rest.length = rest.length + 1
    omega

instance {ε α : Type} [DecidableEq ε] [DecidableEq α] : DecidableEq (Except ε α) :=
  fun a b =>
    match a, b with
    | Except.ok x, Except.ok y => decidable_of_iff (x = y) (by simp)
    | Except.error x, Except.error y => decidable_of_iff (x = y) (by simp)
    | Except.ok _, Except.error _ => Decidable.isFalse (by simp)
    | Except.error _, Except.ok _ => Decidable.isFalse (by simp)

/-! ### Concrete fixtures used by witnesses -/

/-- A concrete anonymised results row. -/
def rowU : ResultsRow :=
  ⟨some "Unknown", some "1", none, none, none, none, none, none, ⟨none, none⟩⟩

/-- A concrete identified results row with all attributes and nested cells. -/
def rowK : ResultsRow :=
  ⟨some "Alice Smith", some "2", some "New PB!", some "61.21 %", some "SW30-34",
    some "Town AC", some "F", some "25",
    ⟨some "https://www.parkrun.org.uk/parkrunner/123456", some "20:31"⟩⟩

/-- The extraction of `rowU`. -/
def pU : PreRecord := ⟨some "Unknown", some "1", none⟩

/-- The extraction of `rowK`. -/
def pK : PreRecord :=
  ⟨some "Alice Smith", some "2",
    some ⟨"123456", "20:31", some "New PB!", some "61.21 %", some "SW30-34",
      some "Town AC", some "F", some "25"⟩⟩

/-- A page oracle whose fetch of event 2 fails and every other event's page
holds the single row `rowU`. -/
def oracleW : ℤ → Option (List ResultsRow) :=
  fun e => if e = 2 then none else some [rowU]

/-- A page oracle on which every event's page holds the single row `rowK`. -/
def oracleK : ℤ → Option (List ResultsRow) :=
  fun _ => some [rowK]

/-! ### The claims -/

/-- Claim C1 (code bug). The claim states that construction refuses to
proceed iff the politeness guard is enabled (`avoid_saturday` not opted
out) and today is Saturday, and that an explicit opt-out
(`avoid_saturday=False`) proceeds on any day. The code's condition is
`not self._avoid_saturday or self._is_today_saturday()`, so an opted-out
caller is refused on every day — here Monday (weekday 0) — with no page
fetched, contradicting the scraper's own docstring ("If true, avoids
accessing the parkrun website on a Saturday") and its own error message
("Today is parkrun day"). With the guard enabled, the behaviour does match
the claim (raise on Saturday, proceed otherwise). -/
theorem construction_guard_rejects_opt_out :
    guardRaises false 0 = true
    ∧ constructionTrace false 0 "philipspark" = []
    ∧ guardRaises true 5 = true
    ∧ guardRaises true 0 = false := by
  decide

/-- Claim C2: the planned set equals the candidate set — the inclusive
range `[from_event, to_event]` (membership `a ≤ e ≤ b`) for a range
request, or the last-N set (membership `e = last - i` for some `i < N`) —
minus the already-fetched numbers, minus every candidate strictly greater
than `last_event_no`; hence the plan is disjoint from the fetched set
(re-requesting a fetched number is a per-number no-op, not an error) and
contains nothing above `last_event_no`. -/
theorem plan_is_candidates_minus_exclusions :
    (∀ (fetched : Finset ℤ) (last n : ℤ) (fo t : Option ℤ) (e : ℤ),
        e ∈ plannedList fetched last fo t n ↔
          e ∈ candidateList last fo t n ∧ e ∉ fetched ∧ e ≤ last)
    ∧ (∀ a b e : ℤ, e ∈ rangeList a b ↔ a ≤ e ∧ e ≤ b)
    ∧ (∀ last n e : ℤ,
        e ∈ lastNList last n ↔ ∃ i : ℕ, (i : ℤ) < n ∧ e = last - (i : ℤ))
    ∧ (∀ (fetched : Finset ℤ) (last n : ℤ) (fo t : Option ℤ),
        Disjoint (plannedList fetched last fo t n).toFinset fetched)
    ∧ (∀ (fetched : Finset ℤ) (last n : ℤ) (fo t : Option ℤ) (e : ℤ),
        e ∈ plannedList fetched last fo t n → e ≤ last) := by
  refine ⟨fun _ _ _ _ _ _ => mem_plannedList, fun _ _ _ => mem_rangeList,
    fun _ _ _ => mem_lastNList, ?_, fun _ _ _ _ _ _ h => (mem_plannedList.mp h).2.2⟩
  intro fetched last n fo t
  rw [Finset.disjoint_left]
  intro e he hef
  rw [List.mem_toFinset] at he
  exact (mem_plannedList.mp he).2.1 hef

/-- Witness for C2: the spec's own worked example, `fetched = {10, 11}`,
`last_event_no = 12`, request = last 5. -/
theorem plan_is_candidates_minus_exclusions_witness :
    (8 : ℤ) ∈ plannedList ({10, 11} : Finset ℤ) 12 none none 5 ↔
      (8 : ℤ) ∈ candidateList 12 none none 5 ∧ (8 : ℤ) ∉ ({10, 11} : Finset ℤ)
        ∧ (8 : ℤ) ≤ 12 :=
  plan_is_candidates_minus_exclusions.1 {10, 11} 12 5 none none 8

/-- Claim C3: after every sequence of `fetch_results` calls on one session
started from the empty state, an event number is in the fetched set (for
events whose extraction yields at least one row) iff its stamped records
were merged into the dataset, and every fetched event's fetch-extract-merge
fully succeeded — no event is marked fetched without its data and no
partial event's rows appear. -/
theorem fetched_iff_merged (pid : String) (oracle : ℤ → Option (List ResultsRow))
    (last : ℤ) (reqs : List FetchRequest) :
    (∀ e ∈ (runCalls pid oracle last reqs initState).fetched,
        eventOk oracle e = true)
    ∧ ∀ e : ℤ,
        (e ∈ (runCalls pid oracle last reqs initState).fetched ∧
            successRecords oracle e ≠ []) ↔
          ∃ r ∈ (runCalls pid oracle last reqs initState).dataset, r.event_no = e :=
  inv_runCalls reqs initState (inv_init oracle)

/-- Witness for C3: one `fetch_results(last_events=1)` call against a page
with one identified row. -/
theorem fetched_iff_merged_witness :
    ((1 : ℤ) ∈ (runCalls "p" oracleK 1 [⟨none, none, 1⟩] initState).fetched ∧
        successRecords oracleK 1 ≠ []) ↔
      ∃ r ∈ (runCalls "p" oracleK 1 [⟨none, none, 1⟩] initState).dataset,
        r.event_no = 1 :=
  (fetched_iff_merged "p" oracleK 1 [⟨none, none, 1⟩]).2 1

/-- Claim C4: when the planner produces an empty to-fetch set,
`fetch_results` performs zero page fetches (empty trace) and leaves the
state unchanged; consequently, after a `fetch_results` call that completed
without an abort, repeating the very same request performs zero fetches
and leaves the dataset and fetched set identical. -/
theorem fetch_results_empty_plan_noop (pid : String)
    (oracle : ℤ → Option (List ResultsRow)) (st : ScraperState) (last : ℤ)
    (fo t : Option ℤ) (n : ℤ)
    (hdone : (fetch_results pid oracle st last fo t n).2.2 = none) :
    (∀ (fo2 t2 : Option ℤ) (m : ℤ), plannedList st.fetched last fo2 t2 m = [] →
        fetch_results pid oracle st last fo2 t2 m = (st, [], none))
    ∧ fetch_results pid oracle (fetch_results pid oracle st last fo t n).1 last fo t n
        = ((fetch_results pid oracle st last fo t n).1, [], none) := by
  have hempty : ∀ (st2 : ScraperState) (fo2 t2 : Option ℤ) (m : ℤ),
      plannedList st2.fetched last fo2 t2 m = [] →
      fetch_results pid oracle st2 last fo2 t2 m = (st2, [], none) := by
    intro st2 fo2 t2 m h
    unfold fetch_results
    simp [h]
  refine ⟨fun fo2 t2 m h => hempty st fo2 t2 m h, ?_⟩
  apply hempty
  rw [List.eq_nil_iff_forall_not_mem]
  intro e he
  obtain ⟨hc, hnf, hle⟩ := mem_plannedList.mp he
  cases hpe : (plannedList st.fetched last fo t n).isEmpty with
  | true =>
    have hnil : plannedList st.fetched last fo t n = [] := by
      cases hp : plannedList st.fetched last fo t n with
      | nil => rfl
      | cons a l => rw [hp] at hpe; exact absurd hpe (by simp)
    have hst : (fetch_results pid oracle st last fo t n).1 = st := by
      rw [hempty st fo t n hnil]
    rw [hst] at hnf
    have hmem : e ∈ plannedList st.fetched last fo t n :=
      mem_plannedList.mpr ⟨hc, hnf, hle⟩
    rw [hnil] at hmem
    exact List.not_mem_nil e hmem
  | false =>
    have hfr : fetch_results pid oracle st last fo t n =
        fetchEventResults pid oracle (plannedList st.fetched last fo t n) st := by
      unfold fetch_results
      simp [hpe]
    have herr :
        (fetchEventResults pid oracle (plannedList st.fetched last fo t n) st).2.2
          = none := by
      rw [← hfr]
      exact hdone
    have hf : (fetch_results pid oracle st last fo t n).1.fetched =
        st.fetched ∪ (plannedList st.fetched last fo t n).toFinset := by
      rw [hfr]
      exact fetchEventResults_err_none st herr
    rw [hf] at hnf
    simp only [Finset.mem_union, List.mem_toFinset, not_or] at hnf
    exact hnf.2 (mem_plannedList.mpr ⟨hc, hnf.1, hle⟩)

/-- Witness for C4: a fresh session, `last_event_no = 3`, request = last 2;
the first call completes, the repeat is an exact no-op. -/
theorem fetch_results_empty_plan_noop_witness :
    fetch_results "p" (fun _ => some []) (fetch_results "p" (fun _ => some [])
        initState 3 none none 2).1 3 none none 2
      = ((fetch_results "p" (fun _ => some []) initState 3 none none 2).1,
         [], none) :=
  (fetch_results_empty_plan_noop "p" (fun _ => some []) initState 3 none none 2
    (by decide)).2

/-- Claim C5: for every successfully extracted results page, a row whose
name attribute is `"Unknown"` yields a record with exactly `event_no`,
`name` and `position` populated and the detail fields genuinely absent,
while every other row yields all detail fields — `parkrun_id` the final
path segment of the profile link, `time` the nested time-cell text, and
the achievement, age-grade, age-group, club, gender and runs attributes —
and every record carries the supplied `event_no`. -/
theorem extraction_row_fields {rows : List ResultsRow} {ps : List PreRecord}
    (e : ℤ) (h : extractResults rows = Except.ok ps) :
    List.Forall₂ (rowSpec e) rows (ps.map (stampEvent e)) :=
  extractResults_spec e h

/-- Witness for C5: a page with one anonymised and one identified row,
stamped with event number 7. -/
theorem extraction_row_fields_witness :
    extractResults [rowU, rowK] = Except.ok [pU, pK]
    ∧ List.Forall₂ (rowSpec 7) [rowU, rowK] ([pU, pK].map (stampEvent 7)) :=
  ⟨by decide, extraction_row_fields 7 (by decide)⟩

/-- Claim C6: when an unrecovered error hits one event of a planned
sequence, processing stops there — the failing event is neither merged nor
marked fetched and no later event is fetched (the trace ends at the failing
fetch attempt) — while every earlier event of the same call stays merged in
the dataset and in the fetched set; the final state and trace are exactly
those of the successful prefix. -/
theorem fetch_failure_operation_scoped (pid : String)
    (oracle : ℤ → Option (List ResultsRow)) (st : ScraperState)
    (pre : List ℤ) (bad : ℤ) (post : List ℤ)
    (hpre : ∀ e ∈ pre, eventOk oracle e = true)
    (hbad : eventOk oracle bad = false) :
    fetchEventResults pid oracle (pre ++ bad :: post) st =
      (⟨st.fetched ∪ pre.toFinset,
        st.dataset ++ pre.flatMap (successRecords oracle)⟩,
       (pre.flatMap fun e => [Action.fetchPage (eventPageUrl pid e), Action.pace])
         ++ [Action.fetchPage (eventPageUrl pid bad)],
       some bad) :=
  fetchEventResults_abort pre bad post st hpre hbad

/-- Witness for C6: events `[1, 2, 3]` where fetching event 2 fails:
event 1 stays merged, event 2 is not marked, event 3 is never fetched. -/
theorem fetch_failure_operation_scoped_witness :
    fetchEventResults "p" oracleW ([1] ++ 2 :: [3]) initState =
      (⟨initState.fetched ∪ ([1] : List ℤ).toFinset,
        initState.dataset ++ ([1] : List ℤ).flatMap (successRecords oracleW)⟩,
       (([1] : List ℤ).flatMap fun e =>
          [Action.fetchPage (eventPageUrl "p" e), Action.pace])
         ++ [Action.fetchPage (eventPageUrl "p" 2)],
       some 2) :=
  fetch_failure_operation_scoped "p" oracleW initState [1] 2 [3]
    (by decide) (by decide)

/-- Claim C7 (counterexample): the claim says that whenever both
`from_event` and `to_event` are given, the explicit inclusive range is the
candidate set. The code dispatches on Python truthiness, so with both
bounds given but `from_event = 0` (here: `from_event=0, to_event=5`,
`last_event_no=10`, `last_events=2`) the candidate set is the last-N list
`[10, 9]`, not the range `[0, 1, 2, 3, 4, 5]`. -/
theorem explicit_range_zero_bound_ignored :
    candidateList 10 (some 0) (some 5) 2 = lastNList 10 2
    ∧ candidateList 10 (some 0) (some 5) 2 ≠ rangeList 0 5
    ∧ rangeList 0 5 = [0, 1, 2, 3, 4, 5]
    ∧ lastNList 10 2 = [10, 9]
    ∧ plannedList (∅ : Finset ℤ) 10 (some 0) (some 5) 2 = [10, 9] := by
  decide

/-- Claim C7 (amended): when both bounds are given *and truthy* (nonzero),
the explicit inclusive range is the candidate set, taking precedence over
the last-N count; when either bound is absent or zero (falsy), the last-N
candidate set is used instead. -/
theorem explicit_range_truthy_precedence (f t last n : ℤ)
    (hf : f ≠ 0) (ht : t ≠ 0) :
    (∀ (fetched : Finset ℤ) (e : ℤ),
        e ∈ plannedList fetched last (some f) (some t) n ↔
          (f ≤ e ∧ e ≤ t) ∧ e ∉ fetched ∧ e ≤ last)
    ∧ ∀ (fo t2 : Option ℤ), truthy fo = false ∨ truthy t2 = false →
        ∀ (fetched : Finset ℤ) (e : ℤ),
          e ∈ plannedList fetched last fo t2 n ↔
            (∃ i : ℕ, (i : ℤ) < n ∧ e = last - (i : ℤ)) ∧ e ∉ fetched ∧ e ≤ last := by
  constructor
  · intro fetched e
    rw [mem_plannedList, candidateList_range hf ht, mem_rangeList]
  · intro fo t2 hft fetched e
    rw [mem_plannedList, candidateList_lastN hft, mem_lastNList]

/-- Witness for amended C7: a truthy range `[1, 3]` against a fresh fetched
set with `last_event_no = 10`. -/
theorem explicit_range_truthy_precedence_witness :
    (2 : ℤ) ∈ plannedList (∅ : Finset ℤ) 10 (some 1) (some 3) 2 :=
  ((explicit_range_truthy_precedence 1 3 10 2 (by decide) (by decide)).1 ∅ 2).mpr
    (by decide)

/-- Claim C8 (counterexample): the claim says the pacing delay is invoked
once per page fetch *including the summary fetch performed at
construction*. A successful construction (guard enabled, Monday) performs
exactly one page fetch — the summary page — and zero `time.sleep(1)`
calls: the summary fetch is not paced. -/
theorem pace_missing_for_summary_fetch :
    countFetch (constructionTrace true 0 "philipspark") = 1
    ∧ countPace (constructionTrace true 0 "philipspark") = 0 := by
  decide

/-- Claim C8 (amended): the pacing delay is invoked exactly once per
per-event results fetch — each successfully processed event's page fetch
is followed by one `time.sleep(1)` — while the summary fetch at
construction is never paced. -/
theorem pace_once_per_event_fetch (pid : String)
    (oracle : ℤ → Option (List ResultsRow)) (evs : List ℤ) (st : ScraperState)
    (h : ∀ e ∈ evs, eventOk oracle e = true) :
    (fetchEventResults pid oracle evs st).2.1
        = evs.flatMap (fun e => [Action.fetchPage (eventPageUrl pid e), Action.pace])
    ∧ countPace (fetchEventResults pid oracle evs st).2.1 = evs.length
    ∧ countFetch (fetchEventResults pid oracle evs st).2.1 = evs.length
    ∧ ∀ (a : Bool) (wd : ℕ) (p : String),
        countPace (constructionTrace a wd p) = 0 := by
  have htr : (fetchEventResults pid oracle evs st).2.1
      = evs.flatMap (fun e => [Action.fetchPage (eventPageUrl pid e), Action.pace]) := by
    rw [fetchEventResults_all_ok st h]
  refine ⟨htr, ?_, ?_, ?_⟩
  · rw [htr, countPace_pairTrace]
  · rw [htr, countFetch_pairTrace]
  · intro a wd p
    unfold constructionTrace
    cases hg : guardRaises a wd <;> simp [hg, countPace]

/-- Witness for amended C8: two successfully fetched events produce two
page fetches and two pacing delays. -/
theorem pace_once_per_event_fetch_witness :
    countPace (fetchEventResults "p" (fun _ => some []) [5, 6] initState).2.1 = 2
    ∧ countFetch (fetchEventResults "p" (fun _ => some []) [5, 6] initState).2.1
        = 2 := by
  have h := pace_once_per_event_fetch "p" (fun _ => some []) [5, 6] initState
    (by decide)
  exact ⟨h.2.1, h.2.2.1⟩

/-- Claim C9 (code bug). The claim (and the spec's data model) says
`position` is an integer finishing rank, as is `event_no`, and that
`position` is not left as raw page text. The code stores
`result.get("data-position")` unconverted (its own TODO reads "deal with
numeric types"), so a row with `data-position="09"` yields the raw string
"09" — not the integer 9, whose rendering is "9" — while `event_no` is
indeed stamped as an integer. -/
theorem position_is_raw_page_text :
    extractResults [⟨some "Unknown", some "09", none, none, none, none, none,
        none, ⟨none, none⟩⟩]
      = Except.ok [⟨some "Unknown", some "09", none⟩]
    ∧ (stampEvent 42 ⟨some "Unknown", some "09", none⟩).position = some "09"
    ∧ (stampEvent 42 ⟨some "Unknown", some "09", none⟩).position
        ≠ some (toString (9 : ℤ))
    ∧ (stampEvent 42 ⟨some "Unknown", some "09", none⟩).event_no = 42 := by
  refine ⟨by decide, rfl, by decide, rfl⟩

/-- Claim C10: the planner applies no lower bound — for a last-N request
with `N > last_event_no`, every non-positive candidate `last - i` that is
not already fetched stays in the plan, and `fetch_results` attempts a page
fetch for each of them (its trace contains the fetch and the call does not
abort) rather than dropping them or raising. -/
theorem planner_no_lower_bound (pid : String)
    (oracle : ℤ → Option (List ResultsRow)) (st : ScraperState) (last n e : ℤ)
    (hlast : 0 ≤ last) (he : e ≤ 0) (hlb : last - n < e) (hef : e ∉ st.fetched)
    (hok : ∀ x ∈ plannedList st.fetched last none none n, eventOk oracle x = true) :
    e ∈ plannedList st.fetched last none none n
    ∧ Action.fetchPage (eventPageUrl pid e)
        ∈ (fetch_results pid oracle st last none none n).2.1
    ∧ (fetch_results pid oracle st last none none n).2.2 = none := by
  have hmem : e ∈ plannedList st.fetched last none none n := by
    rw [mem_plannedList,
      candidateList_lastN (Or.inl (rfl : truthy (none : Option ℤ) = false)),
      mem_lastNList]
    exact ⟨⟨(last - e).toNat, by omega, by omega⟩, hef, by omega⟩
  have hne : (plannedList st.fetched last none none n).isEmpty = false := by
    cases hp : plannedList st.fetched last none none n with
    | nil =>
      rw [hp] at hmem
      exact absurd hmem (List.not_mem_nil e)
    | cons a l => rfl
  have hfr : fetch_results pid oracle st last none none n
      = fetchEventResults pid oracle (plannedList st.fetched last none none n) st := by
    unfold fetch_results
    simp [hne]
  refine ⟨hmem, ?_, ?_⟩
  · rw [hfr, fetchEventResults_all_ok st hok]
    dsimp only
    rw [List.mem_flatMap]
    exact ⟨e, hmem, by simp⟩
  · rw [hfr, fetchEventResults_all_ok st hok]

/-- Witness for C10: `last_event_no = 2`, request = last 5, a fresh fetched
set: event number `-2` is planned and fetched. -/
theorem planner_no_lower_bound_witness :
    (-2 : ℤ) ∈ plannedList initState.fetched 2 none none 5
    ∧ Action.fetchPage (eventPageUrl "p" (-2))
        ∈ (fetch_results "p" (fun _ => some []) initState 2 none none 5).2.1
    ∧ (fetch_results "p" (fun _ => some []) initState 2 none none 5).2.2 = none :=
  planner_no_lower_bound "p" (fun _ => some []) initState 2 5 (-2)
    (by decide) (by decide) (by decide) (by decide) (by decide)

end ParkReport
